import Mathlib

/-!
Verification of the yas artifact-scanner core.

This file gives a shallow embedding, in Lean 4, of the pure parts of the
repository: the traversal-geometry helpers of `artifact_scanner.rs`
(`get_start_row`, `is_page_first_artifact`), the level parser and the
lock-state extraction of `artifact_scanner_worker.rs`, the worker
consumption loop, the lock-list matcher of `lock_list.rs`, and the image
normalization pipeline of `preprocess.rs`.

Conventions of the embedding:
* Rust `i32`/`usize` values are modelled as `Int`/`Nat`; Rust `i32`
  division and remainder (which truncate toward zero) are `Int.tdiv` and
  `Int.tmod`.
* Rust `f32`/`f64` values are modelled as rationals `ℚ`.
* Images are total functions from coordinates to pixel values together
  with a width and a height; code only ever reads pixels inside bounds.
* The external OCR capability is a parameter of the worker model, as it
  is behind the `ImageToText` interface in the code.
-/

namespace Yas

/-! ## Traversal geometry (`artifact_scanner.rs`) -/

/-- Embedding of `GenshinArtifactScanner::get_start_row` from `artifact_scanner.rs`:
given the window-info row/column counts, the total target count
`max_count` and the zero-based cursor `cur_index`, compute the starting
row of the page containing `cur_index`. -/
def get_start_row (row col : Int) (max_count cur_index : Int) : Int :=
  let page_size := col * row
  if max_count - cur_index ≥ page_size then 0
  else
    let remain := max_count - cur_index
    let remain_row := Int.tdiv (remain + col - 1) col
    let scroll_row := min remain_row row
    row - scroll_row

/-- Embedding of `GenshinArtifactScanner::is_page_first_artifact` from
`artifact_scanner.rs`: a cell index is page-first iff it is a multiple of
the page size `col * row`. -/
def is_page_first_artifact (row col : Int) (cur_index : Int) : Bool :=
  let page_size := col * row
  Int.tmod cur_index page_size == 0

/-! ## Level parsing (`artifact_scanner_worker.rs`) -/

/-- Digit-accumulator loop of Rust's integer parsing: consume characters
left to right, failing on the first non-digit. -/
def parseDigitsAcc : List Char → Nat → Option Nat
  | [], acc => some acc
  | c :: cs, acc =>
    if c.isDigit then parseDigitsAcc cs (acc * 10 + (c.toNat - 48)) else none

/-- Model of Rust `str::parse::<i32>` (`i32::from_str`): an optional
leading `+` or `-` sign, then at least one ASCII digit and nothing else,
with the signed value required to fit in `i32`
(`-2^31 ≤ v ≤ 2^31 - 1`). Strings are modelled as lists of characters;
`none` models `Err`. -/
def rustParseI32 (s : List Char) : Option Int :=
  match s with
  | [] => none
  | c :: rest =>
    if c = '+' then
      if rest = [] then none
      else (parseDigitsAcc rest 0).bind fun v =>
        if v ≤ 2147483647 then some (v : Int) else none
    else if c = '-' then
      if rest = [] then none
      else (parseDigitsAcc rest 0).bind fun v =>
        if v ≤ 2147483648 then some (-(v : Int)) else none
    else
      (parseDigitsAcc (c :: rest) 0).bind fun v =>
        if v ≤ 2147483647 then some (v : Int) else none

/-- Embedding of `parse_level` from `artifact_scanner_worker.rs`: find the first `+`;
if there is none, parse the whole string as an integer, otherwise parse
the suffix starting at (and including) the `+`. `none` models the
`Err`/`anyhow` failure path. -/
def parse_level (s : List Char) : Option Int :=
  match s.findIdx? (fun c => c = '+') with
  | none => rustParseI32 s
  | some p => rustParseI32 (s.drop p)

/-- The numeric value of a list of ASCII digit characters, most
significant first. -/
def digitsVal (ds : List Char) : Nat :=
  Nat.ofDigits 10 ((ds.map fun c => c.toNat - 48).reverse)

/-- Split an optional sign character off the front of a literal. -/
def stripSign (s : List Char) : Int × List Char :=
  match s with
  | [] => (1, [])
  | c :: rest =>
    if c = '+' then (1, rest) else if c = '-' then (-1, rest) else (1, s)

/-- Specification-side reading of "a valid signed integer literal": an
optional sign, then a nonempty run of digits and nothing else, whose
signed value fits in `i32`; the result is that value. -/
def signedIntLiteralVal (s : List Char) : Option Int :=
  let sign := (stripSign s).1
  let ds := (stripSign s).2
  if ds ≠ [] ∧ ds.all Char.isDigit = true ∧
      -2147483648 ≤ sign * (digitsVal ds : Int) ∧
      sign * (digitsVal ds : Int) ≤ 2147483647
  then some (sign * (digitsVal ds : Int)) else none

/-! ## Scan results and the lock list (`scan_result.rs`, `lock_list.rs`) -/

/-- Embedding of `GenshinArtifactScanResult` from `scan_result.rs` (the struct
declaration is not among the provided sources; the fields are the ones
the worker constructs in `scan_item_image`): recognized name, main-stat
name and value, the four sub-stat strings in order, the parsed level,
the equip text, the rarity tier and the lock flag. -/
structure GenshinArtifactScanResult where
  name : String
  main_stat_name : String
  main_stat_value : String
  sub_stat_0 : String
  sub_stat_1 : String
  sub_stat_2 : String
  sub_stat_3 : String
  level : Int
  equip : String
  star : Int
  lock : Bool
deriving DecidableEq

/-- Embedding of `LockListEntry` from `lock_list.rs`. -/
structure LockListEntry where
  name : String
  main_stat_name : String
  main_stat_value : String
  sub_stat_0 : String
  sub_stat_1 : String
  sub_stat_2 : String
  sub_stat_3 : String
deriving DecidableEq

/-- Embedding of `LockList` from `lock_list.rs`: the parsed JSON array of entries. -/
structure LockList where
  entries : List LockListEntry

/-- Embedding of `LockList::contains` from `lock_list.rs`: true iff some entry agrees
with the scan result, after `trim`, on the name, the main-stat name and
value, and the four sub-stats in order. -/
def LockList.contains (l : LockList) (r : GenshinArtifactScanResult) : Bool :=
  l.entries.any fun e =>
    e.name.trim == r.name.trim &&
    e.main_stat_name.trim == r.main_stat_name.trim &&
    e.main_stat_value.trim == r.main_stat_value.trim &&
    e.sub_stat_0.trim == r.sub_stat_0.trim &&
    e.sub_stat_1.trim == r.sub_stat_1.trim &&
    e.sub_stat_2.trim == r.sub_stat_2.trim &&
    e.sub_stat_3.trim == r.sub_stat_3.trim

/-- Modelled from the spec: the derived equality/hash of
`GenshinArtifactScanResult` used by the worker's dedup `HashSet` lives
in `scan_result.rs`, which is not among the provided sources; per the
spec it is equality of the recognized content fields — name, stat
fields, level, equip — independent of the lock flag. -/
def contentEq (a b : GenshinArtifactScanResult) : Bool :=
  a.name == b.name && a.main_stat_name == b.main_stat_name &&
  a.main_stat_value == b.main_stat_value &&
  a.sub_stat_0 == b.sub_stat_0 && a.sub_stat_1 == b.sub_stat_1 &&
  a.sub_stat_2 == b.sub_stat_2 && a.sub_stat_3 == b.sub_stat_3 &&
  a.level == b.level && a.equip == b.equip

/-! ## Image normalization pipeline (`preprocess.rs`) -/

/-- A single-channel `f32` image; pixel values as rationals, pixels as a
total function over coordinates (the code only reads in bounds). -/
structure GrayImage where
  width : Nat
  height : Nat
  pix : Nat → Nat → ℚ

/-- All pixel coordinates, in the scan order of `preprocess.rs`
(`x` outer, `y` inner). -/
def allCoords (im : GrayImage) : List (Nat × Nat) :=
  (List.range im.width).flatMap fun i => (List.range im.height).map fun j => (i, j)

/-- The running maximum of `normalize` (initial value `0.0`). -/
def imMax (im : GrayImage) : ℚ :=
  (allCoords im).foldl (fun m c => max m (im.pix c.1 c.2)) 0

/-- The running minimum of `normalize` (initial value `256.0`). -/
def imMin (im : GrayImage) : ℚ :=
  (allCoords im).foldl (fun m c => min m (im.pix c.1 c.2)) 256

/-- Embedding of `normalize` from `preprocess.rs`: fail on an empty image or when all
pixels are equal; otherwise rescale linearly to `[0,1]`, and — when
`auto_inverse` is set and the reference pixel (second column from the
right, bottom row; rightmost column if the width is 1), sampled after
the rescale, is `≥ 0.5` — invert every pixel. The in-place mutation is
modelled by returning the new image alongside the success flag; on
failure the image is returned untouched. -/
def normalize (im : GrayImage) (auto_inverse : Bool) : GrayImage × Bool :=
  if im.width = 0 ∨ im.height = 0 then (im, false)
  else
    let mx := imMax im
    let mn := imMin im
    if mx = mn then (im, false)
    else
      let flag_pixel :=
        if 2 ≤ im.width then im.pix (im.width - 2) (im.height - 1)
        else im.pix (im.width - 1) (im.height - 1)
      let flag := (flag_pixel - mn) / (mx - mn)
      ({ im with pix := fun i j =>
          let v := (im.pix i j - mn) / (mx - mn)
          if auto_inverse ∧ 1/2 ≤ flag then 1 - v else v }, true)

/-- Whether column `i` holds a pixel above the crop content
threshold `0.7`. -/
def colHasContent (im : GrayImage) (i : Nat) : Bool :=
  (List.range im.height).any fun j => decide (im.pix i j > 7/10)

/-- Whether row `j` holds a pixel above the crop content
threshold `0.7`. -/
def rowHasContent (im : GrayImage) (j : Nat) : Bool :=
  (List.range im.width).any fun i => decide (im.pix i j > 7/10)

/-- Embedding of `crop` from `preprocess.rs`: bounding box of the pixels above the
content threshold, scanning columns then rows independently; the image
is returned unmodified when the box is empty. -/
def crop (im : GrayImage) : GrayImage :=
  let min_col := (List.range im.width).foldl
    (fun m i => if colHasContent im i then min m i else m) (im.width - 1)
  let max_col := (List.range im.width).foldl
    (fun m i => if colHasContent im i then max m i else m) 0
  let min_row := (List.range im.height).foldl
    (fun m j => if rowHasContent im j then min m j else m) (im.height - 1)
  let max_row := (List.range im.height).foldl
    (fun m j => if rowHasContent im j then max m j else m) 0
  if min_col > max_col ∨ min_row > max_row then im
  else
    { width := max_col - min_col + 1,
      height := max_row - min_row + 1,
      pix := fun i j => im.pix (i + min_col) (j + min_row) }

/-- Triangle (tent) filter kernel with support radius `s`. -/
def triangleKernel (s x : ℚ) : ℚ := max 0 (1 - |x| / s)

/-- Modelled from the spec: one line of the external image library's
smooth (triangle-filter) resampling — `imageops::resize` with
`FilterType::Triangle` is outside this repository. An output sample is
the normalized triangle-kernel weighted average of the source samples,
the kernel support scaled by the downscale factor. -/
def resample1D (n m : Nat) (f : Nat → ℚ) (o : Nat) : ℚ :=
  let scale : ℚ := if m = 0 then 1 else (n : ℚ) / (m : ℚ)
  let support := max scale 1
  let ws := (List.range n).map fun (i : Nat) =>
    triangleKernel support ((i : ℚ) + 1/2 - (((o : ℚ) + 1/2) * scale))
  let total := ((List.range n).map fun (i : Nat) =>
    triangleKernel support ((i : ℚ) + 1/2 - (((o : ℚ) + 1/2) * scale)) * f i).sum
  if ws.sum = 0 then 0 else total / ws.sum

/-- Modelled from the spec: two-pass (horizontal then vertical)
triangle-filter resize of the external image library. -/
def resizeTriangle (im : GrayImage) (nw nh : Nat) : GrayImage :=
  { width := nw, height := nh,
    pix := fun i j => resample1D im.height nh
      (fun y => resample1D im.width nw (fun x => im.pix x y) i) j }

/-- Embedding of `resize_and_pad` from `preprocess.rs`: scale to height 32 and width
`w * 32 / h` with the triangle filter, then overlay the result at the
origin of a 384×32 zero canvas. -/
def resize_and_pad (im : GrayImage) : GrayImage :=
  let new_width := im.width * 32 / im.height
  let img := resizeTriangle im new_width 32
  { width := 384, height := 32,
    pix := fun i j => if i < img.width ∧ j < img.height then img.pix i j else 0 }

/-- Embedding of `binarize` from `preprocess.rs`: pixel `≥ threshold` becomes 1,
anything else 0. -/
def binarize (im : GrayImage) (threshold : ℚ) : GrayImage :=
  { im with pix := fun i j => if threshold ≤ im.pix i j then 1 else 0 }

/-- Embedding of `BINARIZE_THRESHOLD` from `preprocess.rs`. -/
def BINARIZE_THRESHOLD : ℚ := 53/100

/-- Embedding of `BINARIZE_THRESHOLD_PENDING` from `preprocess.rs`. -/
def BINARIZE_THRESHOLD_PENDING : ℚ := 1/2

/-- Embedding of `pre_process` from `preprocess.rs`: normalize (with auto-inverse),
crop, re-normalize, resize-and-pad, binarize at 0.53; a failed
normalization short-circuits with the untouched image and a `false`
usable-content flag. -/
def pre_process (im : GrayImage) : GrayImage × Bool :=
  match normalize im true with
  | (im0, false) => (im0, false)
  | (im1, true) =>
    let im2 := crop im1
    let im3 := (normalize im2 false).1
    let im4 := resize_and_pad im3
    (binarize im4 BINARIZE_THRESHOLD, true)

/-- Embedding of `pre_process_pending_line` from `preprocess.rs`: as `pre_process`
but binarizing at the lower pending-line threshold 0.50. -/
def pre_process_pending_line (im : GrayImage) : GrayImage × Bool :=
  match normalize im true with
  | (im0, false) => (im0, false)
  | (im1, true) =>
    let im2 := crop im1
    let im3 := (normalize im2 false).1
    let im4 := resize_and_pad im3
    (binarize im4 BINARIZE_THRESHOLD_PENDING, true)

/-- Modelled from the spec: the recognition capability runs on the
preprocessed canvas only when the pipeline reports usable content; a
blank capture yields "no text" without invoking recognition (the model
inference code sits outside the provided sources, behind the
`ImageToText` interface). -/
def recognizeGuarded (recognize : GrayImage → String) (im : GrayImage) :
    Option String :=
  if (pre_process im).2 then some (recognize (pre_process im).1) else none

/-! ## Lock-state detection and the worker loop
(`artifact_scanner_worker.rs`) -/

/-- An RGB bitmap: `u8` channels modelled as naturals, pixels as a total
function over coordinates. -/
structure RgbImage where
  width : Nat
  height : Nat
  pix : Nat → Nat → Nat × Nat × Nat

/-- An `f64` size (as in the window-info `Size` fields). -/
structure SizeQ where
  width : ℚ
  height : ℚ

/-- The fields of `ArtifactScannerWindowInfo` used by the embedded code
(the struct declaration is in `artifact_scanner_window_info.rs`, not
among the provided sources; the field names and types follow their uses
in the worker and scanner code). -/
structure ArtifactScannerWindowInfo where
  row : Int
  col : Int
  item_gap_size : SizeQ
  item_size : SizeQ

/-- Embedding of `color_distance` (as defined in `artifact_scanner.rs`): squared
Euclidean distance in RGB space. -/
def color_distance (c1 c2 : Nat × Nat × Nat) : Int :=
  let x := (c1.1 : Int) - (c2.1 : Int)
  let y := (c1.2.1 : Int) - (c2.2.1 : Int)
  let z := (c1.2.2 : Int) - (c2.2.2 : Int)
  x * x + y * y + z * z

/-- Rust `as`-cast of a finite `f64` to `i32` for the in-range values
arising here: truncation toward zero. -/
def ratTruncI32 (q : ℚ) : Int := if 0 ≤ q then ⌊q⌋ else ⌈q⌉

/-- Rust `as`-cast of an `i32` to `u32`: wraps modulo `2^32`. -/
def i32AsU32 (n : Int) : Nat := (n % 4294967296).toNat

/-- Rust `as`-cast of an in-range `f64` to `u32` (used in the row-offset
bound check): truncation, negative values saturating to 0. -/
def ratTruncU32 (q : ℚ) : Nat := (ratTruncI32 q).toNat

/-- The inner marked `'sq` search of `get_page_locks_from_list_image`:
scan a small window (`dx ∈ {-1,0}`, `dy ∈ [-10,9]`) around the lock-icon
anchor for a pixel within color distance 30 of the reference color
`[255,138,117]`; rows outside the image are skipped. -/
def lockedAt (li : RgbImage) (pos_x pos_y : ℚ) : Bool :=
  (List.range 2).any fun dxi =>
    (List.range 20).any fun dyi =>
      let dx : Int := (dxi : Int) - 1
      let dy : Int := (dyi : Int) - 10
      let py : Int := ratTruncI32 pos_y + dy
      if py < 0 || decide (i32AsU32 py ≥ li.height) then false
      else
        decide (color_distance
          (li.pix (i32AsU32 (ratTruncI32 pos_x + dx)) (i32AsU32 py))
          (255, 138, 117) < 30)

/-- Embedding of `get_page_locks_from_list_image` from `artifact_scanner_worker.rs`
(with `debug_dir = None`, so the debug dumps are no-ops): per cell of
the page, row-major, the lock state read at the lock-icon position
`(19, 93)` within the cell; a row whose vertical offset exceeds the list
image's height stops the row loop. -/
def get_page_locks_from_list_image (li : RgbImage)
    (wi : ArtifactScannerWindowInfo) : List Bool :=
  let gap := wi.item_gap_size
  let size := wi.item_size
  ((List.range wi.row.toNat).takeWhile fun (r : Nat) =>
      decide (ratTruncU32 ((gap.height + size.height) * (r : ℚ)) ≤ li.height)).flatMap
    fun (r : Nat) =>
      (List.range wi.col.toNat).map fun (c : Nat) =>
        lockedAt li ((gap.width + size.width) * (c : ℚ) + 19)
          ((gap.height + size.height) * (r : ℚ) + 93)

/-- A message on the driver→worker channel (`SendItem` from
`message_items.rs`, fields as constructed in `artifact_scanner.rs`): the
captured panel image, the grid-list capture present only on page-first
cells, and the rarity tier. -/
structure SendItem where
  panel_image : RgbImage
  list_image : Option RgbImage
  star : Nat

/-- The scanner-configuration fields the worker loop reads
(`GenshinArtifactScannerConfig`): the level floor and the
duplicate-override flag. -/
structure GenshinArtifactScannerConfig where
  min_level : Int
  ignore_dup : Bool

/-- The worker loop's mutable state: accepted results in order, the
dedup set (modelled as the list of inserted records, membership by
`contentEq`), the consecutive-duplicate counter, the accumulated
per-page lock flags, the count of consumed items, and the messages sent
on the feedback channel. -/
structure WorkerState where
  results : List GenshinArtifactScanResult
  dedup : List GenshinArtifactScanResult
  dupCount : Int
  locks : List Bool
  artifactIndex : Int
  feedback : List (Option GenshinArtifactScanResult)
deriving DecidableEq

/-- Outcome of the worker loop: normal completion, or the out-of-bounds
`locks[artifact_index - 1]` access; both record the final state and the
number of channel messages consumed. -/
inductive WorkerOutcome where
  | ok (st : WorkerState) (consumed : Nat)
  | panicked (st : WorkerState) (consumed : Nat)
deriving DecidableEq

/-- Whether the outcome is the out-of-bounds access. -/
def WorkerOutcome.isPanic : WorkerOutcome → Bool
  | .ok _ _ => false
  | .panicked _ _ => true

/-- Account for one more consumed message around a recursive call. -/
def WorkerOutcome.bump : WorkerOutcome → WorkerOutcome
  | .ok st n => .ok st (n + 1)
  | .panicked st n => .panicked st (n + 1)

/-- The worker's `send_result` closure: forward a result (or a `None`
failure marker) on the feedback channel when one is configured. -/
def pushFeedback (hasTx : Bool) (fb : List (Option GenshinArtifactScanResult))
    (x : Option GenshinArtifactScanResult) :
    List (Option GenshinArtifactScanResult) :=
  if hasTx then fb ++ [x] else fb

/-- Membership in the dedup set (`hash.contains(&result)`). -/
def dedupMem (r : GenshinArtifactScanResult)
    (l : List GenshinArtifactScanResult) : Bool :=
  l.any fun x => contentEq x r

/-- The lock flags contributed by one message: `get_page_locks` of its
list image when it carries one, nothing otherwise. -/
def pageLocksOf (wi : ArtifactScannerWindowInfo) (item : SendItem) : List Bool :=
  match item.list_image with
  | some li => get_page_locks_from_list_image li wi
  | none => []

/-- The consumption loop of `ArtifactScannerWorker::run` from
`artifact_scanner_worker.rs`, as a function of the successive channel
messages (`none` is the explicit end sentinel; the end of the list
models closure of the channel). The external OCR pipeline `scan` stands
for `scan_item_image` up to the lock flag, which the worker itself fills
in from the accumulated page locks; `scan item = none` models a
per-item recognition or level-parse error. -/
def runWorker (wi : ArtifactScannerWindowInfo)
    (cfg : GenshinArtifactScannerConfig)
    (scan : SendItem → Option GenshinArtifactScanResult) (hasTx : Bool) :
    List (Option SendItem) → WorkerState → WorkerOutcome
  | [], st => .ok st 0
  | none :: _, st => .ok st 1
  | some item :: rest, st =>
    let locks1 := st.locks ++ pageLocksOf wi item
    let idx := st.artifactIndex + 1
    match locks1.get? (idx - 1).toNat with
    | none => .panicked { st with locks := locks1, artifactIndex := idx } 1
    | some lk =>
      match scan item with
      | none =>
        (runWorker wi cfg scan hasTx rest
          { st with
            locks := locks1
            artifactIndex := idx
            feedback := pushFeedback hasTx st.feedback none }).bump
      | some r0 =>
        let r := { r0 with lock := lk }
        let fb := pushFeedback hasTx st.feedback (some r)
        if r.level < cfg.min_level then
          .ok { st with locks := locks1, artifactIndex := idx, feedback := fb } 1
        else if dedupMem r st.dedup then
          let st1 := { st with
            locks := locks1
            artifactIndex := idx
            feedback := fb
            dupCount := st.dupCount + 1 }
          if st1.dupCount ≥ wi.col ∧ ¬ cfg.ignore_dup then .ok st1 1
          else (runWorker wi cfg scan hasTx rest st1).bump
        else
          let st1 := { st with
            locks := locks1
            artifactIndex := idx
            feedback := fb
            dupCount := 0
            dedup := r :: st.dedup
            results := st.results ++ [r] }
          if st1.dupCount ≥ wi.col ∧ ¬ cfg.ignore_dup then .ok st1 1
          else (runWorker wi cfg scan hasTx rest st1).bump

/-! ## Concrete instances used by witnesses -/

/-- A 1×1 single-color capture (a blank). -/
def constImage : GrayImage := ⟨1, 1, fun _ _ => 1/2⟩

/-- A 2×1 grayscale image with one black and one white pixel. -/
def twoPixelImage : GrayImage := ⟨2, 1, fun i _ => if i = 0 then 0 else 1⟩

/-- A 1×1 RGB capture. -/
def blackRgbImage : RgbImage := ⟨1, 1, fun _ _ => (0, 0, 0)⟩

/-- A scan result with fixed content. -/
def sampleResult : GenshinArtifactScanResult :=
  ⟨"name", "atk", "311", "s0", "s1", "s2", "s3", 20, "equip", 5, false⟩

/-- A scan item carrying no list image. -/
def plainItem : SendItem := ⟨blackRgbImage, none, 5⟩

/-- A 50×200 all-black grid-list capture. -/
def listImage50 : RgbImage := ⟨50, 200, fun _ _ => (0, 0, 0)⟩

/-- A scan item carrying the grid-list capture. -/
def imageItem : SendItem := ⟨blackRgbImage, some listImage50, 5⟩

/-- For positive `b` and positive `a`, the rational ceiling of `a / b`
is computed by the integer expression `(a + b - 1) / b` (with truncating
division, as Rust evaluates it on positive operands). -/
theorem ceil_div_eq_tdiv (a b : Int) (ha : 0 < a) (hb : 0 < b) :
    ⌈(a : ℚ) / (b : ℚ)⌉ = Int.tdiv (a + b - 1) b := by
  have hnn : (0 : Int) ≤ a + b - 1 := by omega
  rw [Int.tdiv_eq_ediv hnn (le_of_lt hb)]
  have hdm0 : b * ((a + b - 1) / b) + (a + b - 1) % b = a + b - 1 :=
    Int.ediv_add_emod _ _
  generalize hqdef : (a + b - 1) / b = q at hdm0
  have hdm : b * q + (a + b - 1) % b = a + b - 1 := hdm0
  have hm0 : 0 ≤ (a + b - 1) % b := Int.emod_nonneg _ (by omega)
  have hm1 : (a + b - 1) % b < b := Int.emod_lt_of_pos _ hb
  have hbq : (0 : ℚ) < (b : ℚ) := by exact_mod_cast hb
  rw [Int.ceil_eq_iff]
  constructor
  · rw [lt_div_iff₀ hbq]
    have h1 : (q - 1) * b < a := by
      have e1 : (q - 1) * b = b * q - b := by ring
      omega
    exact_mod_cast h1
  · rw [div_le_iff₀ hbq]
    have h2 : a ≤ q * b := by
      have e2 : q * b = b * q := by ring
      omega
    exact_mod_cast h2

/-- C1: for positive `rows`, `cols` and a cursor `0 ≤ i < M`,
`get_start_row` returns `0` when `M - i ≥ rows * cols`, and otherwise
returns `rows - min ⌈(M - i) / cols⌉ rows`. -/
theorem get_start_row_correct (rows cols M i : Int)
    (hrows : 0 < rows) (hcols : 0 < cols) (hi0 : 0 ≤ i) (hiM : i < M) :
    (M - i ≥ rows * cols → get_start_row rows cols M i = 0) ∧
    (M - i < rows * cols →
      get_start_row rows cols M i
        = rows - min ⌈((M - i : Int) : ℚ) / ((cols : Int) : ℚ)⌉ rows) := by
  constructor
  · intro h
    have h' : M - i ≥ cols * rows := by rw [mul_comm]; exact h
    simp [get_start_row, h']
  · intro h
    have h' : ¬ (M - i ≥ cols * rows) := by rw [mul_comm]; omega
    have hrem : 0 < M - i := by omega
    simp only [get_start_row, h', if_neg, if_false]
    rw [ceil_div_eq_tdiv (M - i) cols hrem hcols]

/-- Witness for C1 at the claim's own instance `M = 20`, `i = 17`,
`rows = 4`, `cols = 5`: the remaining 3 items need one row, so the start
row is `4 - 1 = 3`. -/
theorem get_start_row_correct_witness :
    (0 : Int) < 4 ∧ (0 : Int) < 5 ∧ (0 : Int) ≤ 17 ∧ (17 : Int) < 20 ∧
    get_start_row 4 5 20 17 = 3 := by
  refine ⟨by decide, by decide, by decide, by decide, ?_⟩
  have h := (get_start_row_correct 4 5 20 17 (by decide) (by decide)
    (by decide) (by decide)).2 (by decide)
  rw [h]
  have hc : ⌈(3 : ℚ) / 5⌉ = 1 := by norm_num [Int.ceil_eq_iff]
  norm_num [hc]

/-- C10: for nonnegative `i` and positive `rows`, `cols`,
`is_page_first_artifact` returns `true` exactly when
`i mod (rows * cols) = 0` (and `false` for every other `i`). -/
theorem is_page_first_artifact_iff (rows cols i : Int)
    (hrows : 0 < rows) (hcols : 0 < cols) (hi : 0 ≤ i) :
    (is_page_first_artifact rows cols i = true ↔ i % (rows * cols) = 0) := by
  unfold is_page_first_artifact
  have hpm : Int.tmod i (cols * rows) = i % (cols * rows) :=
    Int.tmod_eq_emod hi (by positivity)
  simp only [beq_iff_eq]
  rw [hpm, mul_comm cols rows]

/-- Witness for C10 at `rows = 4`, `cols = 5`, `i = 20`: index 20 is the
first cell of the second page. -/
theorem is_page_first_artifact_iff_witness :
    is_page_first_artifact 4 5 20 = true ∧ (20 : Int) % (4 * 5) = 0 := by
  have h := is_page_first_artifact_iff 4 5 20 (by decide) (by decide) (by decide)
  exact ⟨h.mpr (by decide), by decide⟩

theorem digitsVal_cons (c : Char) (cs : List Char) :
    digitsVal (c :: cs) = digitsVal cs + 10 ^ cs.length * (c.toNat - 48) := by
  unfold digitsVal
  rw [List.map_cons, List.reverse_cons, Nat.ofDigits_append]
  simp [Nat.ofDigits_singleton]

theorem parseDigitsAcc_eq_some (ds : List Char) (acc v : Nat) :
    parseDigitsAcc ds acc = some v ↔
      (ds.all Char.isDigit = true ∧ v = acc * 10 ^ ds.length + digitsVal ds) := by
  induction ds generalizing acc with
  | nil =>
    simp [parseDigitsAcc, digitsVal, Nat.ofDigits, eq_comm]
  | cons c cs ih =>
    by_cases hc : c.isDigit
    · rw [show parseDigitsAcc (c :: cs) acc
          = parseDigitsAcc cs (acc * 10 + (c.toNat - 48)) from by
            simp [parseDigitsAcc, hc]]
      rw [ih]
      have e : (acc * 10 + (c.toNat - 48)) * 10 ^ cs.length + digitsVal cs
          = acc * 10 ^ (c :: cs).length + digitsVal (c :: cs) := by
        rw [digitsVal_cons, List.length_cons, pow_succ]
        ring
      rw [e]
      simp [hc]
    · rw [show parseDigitsAcc (c :: cs) acc = none from by
        simp [parseDigitsAcc, hc]]
      simp [hc]

theorem parseDigitsAcc_zero (ds : List Char) :
    parseDigitsAcc ds 0
      = if ds.all Char.isDigit = true then some (digitsVal ds) else none := by
  by_cases h : ds.all Char.isDigit = true
  · rw [if_pos h]
    exact (parseDigitsAcc_eq_some ds 0 (digitsVal ds)).mpr ⟨h, by simp⟩
  · rw [if_neg h]
    rcases he : parseDigitsAcc ds 0 with _ | v
    · rfl
    · exact absurd ((parseDigitsAcc_eq_some ds 0 v).mp he).1 h

/-- Core of the agreement argument for a nonempty all-considered digit
block with positive sign and upper bound `hi`. -/
theorem bind_eq_literal_pos (ds : List Char) (hne : ds ≠ []) :
    ((parseDigitsAcc ds 0).bind fun v =>
        if v ≤ 2147483647 then some (v : Int) else none)
      = if (ds ≠ [] ∧ ds.all Char.isDigit = true ∧
            -2147483648 ≤ 1 * (digitsVal ds : Int) ∧
            1 * (digitsVal ds : Int) ≤ 2147483647)
        then some (1 * (digitsVal ds : Int)) else none := by
  rw [parseDigitsAcc_zero]
  by_cases hall : ds.all Char.isDigit = true
  · rw [if_pos hall, Option.some_bind]
    by_cases hv : digitsVal ds ≤ 2147483647
    · rw [if_pos hv, if_pos ⟨hne, hall, by omega, by omega⟩, one_mul]
    · rw [if_neg hv, if_neg (by rintro ⟨-, -, -, h4⟩; omega)]
  · rw [if_neg hall, Option.none_bind,
      if_neg (by rintro ⟨-, h2, -⟩; exact hall h2)]

/-- Same as `bind_eq_literal_pos` for the negative-sign branch. -/
theorem bind_eq_literal_neg (ds : List Char) (hne : ds ≠ []) :
    ((parseDigitsAcc ds 0).bind fun v =>
        if v ≤ 2147483648 then some (-(v : Int)) else none)
      = if (ds ≠ [] ∧ ds.all Char.isDigit = true ∧
            -2147483648 ≤ -1 * (digitsVal ds : Int) ∧
            -1 * (digitsVal ds : Int) ≤ 2147483647)
        then some (-1 * (digitsVal ds : Int)) else none := by
  rw [parseDigitsAcc_zero]
  by_cases hall : ds.all Char.isDigit = true
  · rw [if_pos hall, Option.some_bind]
    by_cases hv : digitsVal ds ≤ 2147483648
    · rw [if_pos hv, if_pos ⟨hne, hall, by omega, by omega⟩, neg_one_mul]
    · rw [if_neg hv, if_neg (by rintro ⟨-, -, h3, -⟩; omega)]
  · rw [if_neg hall, Option.none_bind,
      if_neg (by rintro ⟨-, h2, -⟩; exact hall h2)]

/-- The embedded Rust parser agrees with the specification-side signed
integer literal reading, on every string. -/
theorem rustParseI32_eq_spec (s : List Char) :
    rustParseI32 s = signedIntLiteralVal s := by
  rcases s with _ | ⟨c, rest⟩
  · rfl
  · by_cases hplus : c = '+'
    · subst hplus
      rcases rest with _ | ⟨r, rs⟩
      · rfl
      · show ((parseDigitsAcc (r :: rs) 0).bind fun v =>
            if v ≤ 2147483647 then some (v : Int) else none)
          = signedIntLiteralVal ('+' :: r :: rs)
        have hR : signedIntLiteralVal ('+' :: r :: rs)
            = if ((r :: rs : List Char) ≠ [] ∧
                  (r :: rs).all Char.isDigit = true ∧
                  -2147483648 ≤ 1 * (digitsVal (r :: rs) : Int) ∧
                  1 * (digitsVal (r :: rs) : Int) ≤ 2147483647)
              then some (1 * (digitsVal (r :: rs) : Int)) else none := rfl
        rw [hR, bind_eq_literal_pos (r :: rs) (List.cons_ne_nil r rs)]
    · by_cases hminus : c = '-'
      · subst hminus
        rcases rest with _ | ⟨r, rs⟩
        · rfl
        · show ((parseDigitsAcc (r :: rs) 0).bind fun v =>
              if v ≤ 2147483648 then some (-(v : Int)) else none)
            = signedIntLiteralVal ('-' :: r :: rs)
          have hR : signedIntLiteralVal ('-' :: r :: rs)
              = if ((r :: rs : List Char) ≠ [] ∧
                    (r :: rs).all Char.isDigit = true ∧
                    -2147483648 ≤ -1 * (digitsVal (r :: rs) : Int) ∧
                    -1 * (digitsVal (r :: rs) : Int) ≤ 2147483647)
                then some (-1 * (digitsVal (r :: rs) : Int)) else none := rfl
          rw [hR, bind_eq_literal_neg (r :: rs) (List.cons_ne_nil r rs)]
      · have hss : stripSign (c :: rest) = (1, c :: rest) := by
          simp [stripSign, hplus, hminus]
        have hL : rustParseI32 (c :: rest)
            = (parseDigitsAcc (c :: rest) 0).bind fun v =>
                if v ≤ 2147483647 then some (v : Int) else none := by
          simp only [rustParseI32]
          rw [if_neg hplus, if_neg hminus]
        have hR : signedIntLiteralVal (c :: rest)
            = if ((c :: rest : List Char) ≠ [] ∧
                  (c :: rest).all Char.isDigit = true ∧
                  -2147483648 ≤ 1 * (digitsVal (c :: rest) : Int) ∧
                  1 * (digitsVal (c :: rest) : Int) ≤ 2147483647)
              then some (1 * (digitsVal (c :: rest) : Int)) else none := by
          unfold signedIntLiteralVal
          rw [hss]
        rw [hL, hR, bind_eq_literal_pos (c :: rest) (List.cons_ne_nil c rest)]

/-- C7: `parse_level` succeeds with value `n` exactly when the portion it
is defined to look at — the suffix starting at the first `+` when one is
present, the whole string otherwise — is a valid signed integer literal
with value `n`; on any other input it fails. -/
theorem parse_level_spec (s : List Char) (n : Int) :
    parse_level s = some n ↔
      (match s.findIdx? (fun c => c = '+') with
       | some p => signedIntLiteralVal (s.drop p) = some n
       | none => signedIntLiteralVal s = some n) := by
  unfold parse_level
  cases s.findIdx? (fun c => c = '+') with
  | none =>
    show rustParseI32 s = some n ↔ signedIntLiteralVal s = some n
    rw [rustParseI32_eq_spec]
  | some p =>
    show rustParseI32 (s.drop p) = some n ↔ signedIntLiteralVal (s.drop p) = some n
    rw [rustParseI32_eq_spec]

/-- C8: `LockList.contains` returns `true` iff some entry of the list
agrees with the scan result, after trimming surrounding whitespace, on
all seven matched fields — name, main-stat name, main-stat value, and
the four sub-stats in order; when every entry differs from the result in
at least one trimmed field it returns `false`. -/
theorem lock_list_contains_iff (l : LockList) (r : GenshinArtifactScanResult) :
    l.contains r = true ↔
      ∃ e ∈ l.entries,
        e.name.trim = r.name.trim ∧
        e.main_stat_name.trim = r.main_stat_name.trim ∧
        e.main_stat_value.trim = r.main_stat_value.trim ∧
        e.sub_stat_0.trim = r.sub_stat_0.trim ∧
        e.sub_stat_1.trim = r.sub_stat_1.trim ∧
        e.sub_stat_2.trim = r.sub_stat_2.trim ∧
        e.sub_stat_3.trim = r.sub_stat_3.trim := by
  unfold LockList.contains
  rw [List.any_eq_true]
  simp only [Bool.and_eq_true, beq_iff_eq, and_assoc]

/-- Folding the running-max update over coordinates that all carry the
same value `v` yields `max a v` (for a nonempty coordinate list). -/
theorem foldl_max_const (L : List (Nat × Nat)) (g : Nat × Nat → ℚ) (v a : ℚ)
    (hL : ∀ c ∈ L, g c = v) :
    L.foldl (fun m c => max m (g c)) a = if L = [] then a else max a v := by
  induction L generalizing a with
  | nil => simp
  | cons c cs ih =>
    rw [List.foldl_cons, hL c (List.mem_cons_self c cs),
      ih _ (fun d hd => hL d (List.mem_cons_of_mem c hd))]
    by_cases hcs : cs = []
    · simp [hcs]
    · rw [if_neg hcs, if_neg (List.cons_ne_nil c cs), max_assoc, max_self]

/-- Folding the running-min update over coordinates that all carry the
same value `v` yields `min a v` (for a nonempty coordinate list). -/
theorem foldl_min_const (L : List (Nat × Nat)) (g : Nat × Nat → ℚ) (v a : ℚ)
    (hL : ∀ c ∈ L, g c = v) :
    L.foldl (fun m c => min m (g c)) a = if L = [] then a else min a v := by
  induction L generalizing a with
  | nil => simp
  | cons c cs ih =>
    rw [List.foldl_cons, hL c (List.mem_cons_self c cs),
      ih _ (fun d hd => hL d (List.mem_cons_of_mem c hd))]
    by_cases hcs : cs = []
    · simp [hcs]
    · rw [if_neg hcs, if_neg (List.cons_ne_nil c cs), min_assoc, min_self]

theorem mem_allCoords (im : GrayImage) (c : Nat × Nat) :
    c ∈ allCoords im ↔ c.1 < im.width ∧ c.2 < im.height := by
  rcases c with ⟨i, j⟩
  simp [allCoords]

theorem allCoords_ne_nil (im : GrayImage) (hw : 0 < im.width)
    (hh : 0 < im.height) : allCoords im ≠ [] := by
  intro hnil
  have : (0, 0) ∈ allCoords im := (mem_allCoords im (0, 0)).mpr ⟨hw, hh⟩
  rw [hnil] at this
  exact absurd this (List.not_mem_nil _)

/-- C4: on a degenerate capture — an empty image, or a grayscale image
(pixel values in `[0,1]`) whose pixels are all equal, so that the
observed minimum equals the observed maximum — `normalize` fails (for
either auto-inverse mode), `pre_process` and `pre_process_pending_line`
return the image untouched with a `false` usable-content flag (so the
crop, resize-and-pad and binarize stages never run), and the guarded
recognition step is never invoked. -/
theorem pre_process_blank (im : GrayImage)
    (h : im.width = 0 ∨ im.height = 0 ∨
      ((∀ i j, i < im.width → j < im.height → im.pix i j ∈ Set.Icc (0 : ℚ) 1) ∧
       ∀ i j i2 j2, i < im.width → j < im.height → i2 < im.width →
         j2 < im.height → im.pix i j = im.pix i2 j2)) :
    (∀ ai, normalize im ai = (im, false)) ∧
    pre_process im = (im, false) ∧
    pre_process_pending_line im = (im, false) ∧
    ∀ recognize, recognizeGuarded recognize im = none := by
  have hnorm : ∀ ai, normalize im ai = (im, false) := by
    intro ai
    by_cases hdim : im.width = 0 ∨ im.height = 0
    · unfold normalize
      rw [if_pos hdim]
    · push_neg at hdim
      have hw : 0 < im.width := Nat.pos_of_ne_zero hdim.1
      have hh : 0 < im.height := Nat.pos_of_ne_zero hdim.2
      rcases h with h0 | h0 | ⟨hrange, heq⟩
      · exact absurd h0 hdim.1
      · exact absurd h0 hdim.2
      · have hv : ∀ c ∈ allCoords im, im.pix c.1 c.2 = im.pix 0 0 := by
          intro c hc
          obtain ⟨h1, h2⟩ := (mem_allCoords im c).mp hc
          exact heq c.1 c.2 0 0 h1 h2 hw hh
        obtain ⟨h00l, h00r⟩ := hrange 0 0 hw hh
        have hmax : imMax im = im.pix 0 0 := by
          unfold imMax
          rw [foldl_max_const _ _ (im.pix 0 0) 0 hv,
            if_neg (allCoords_ne_nil im hw hh)]
          exact max_eq_right h00l
        have hmin : imMin im = im.pix 0 0 := by
          unfold imMin
          rw [foldl_min_const _ _ (im.pix 0 0) 256 hv,
            if_neg (allCoords_ne_nil im hw hh)]
          exact min_eq_right (le_trans h00r (by norm_num))
        unfold normalize
        rw [if_neg (by push_neg; exact hdim), if_pos (hmax.trans hmin.symm)]
  refine ⟨hnorm, ?_, ?_, ?_⟩
  · unfold pre_process
    rw [hnorm true]
  · unfold pre_process_pending_line
    rw [hnorm true]
  · intro recognize
    unfold recognizeGuarded
    rw [show pre_process im = (im, false) from by unfold pre_process; rw [hnorm true]]
    rfl

/-- Witness for C4 at a concrete 1×1 single-color capture. -/
theorem pre_process_blank_witness :
    pre_process constImage = (constImage, false) ∧
    normalize constImage true = (constImage, false) := by
  have h := pre_process_blank constImage (Or.inr (Or.inr
    ⟨fun i j _ _ => by constructor <;> norm_num [constImage],
     fun i j i2 j2 _ _ _ _ => rfl⟩))
  exact ⟨h.2.1, h.1 true⟩

/-- C5: for an image with observed `min < max`, normalization with
auto-inverse enabled samples the reference pixel — second-from-right
column, bottom row — after the linear rescale to `[0,1]`, and replaces
every rescaled pixel `v` by `1 - v` exactly when that rescaled reference
value is at least `0.5`; otherwise all pixels keep their rescaled
values. -/
theorem normalize_auto_inverse (im : GrayImage)
    (hw : 2 ≤ im.width) (hh : 0 < im.height)
    (hlt : imMin im < imMax im) :
    (normalize im true).2 = true ∧
    ∀ i j,
      (normalize im true).1.pix i j =
        (if 1/2 ≤ (im.pix (im.width - 2) (im.height - 1) - imMin im)
              / (imMax im - imMin im)
         then 1 - (im.pix i j - imMin im) / (imMax im - imMin im)
         else (im.pix i j - imMin im) / (imMax im - imMin im)) := by
  have hdim : ¬(im.width = 0 ∨ im.height = 0) := by omega
  have hne : ¬ imMax im = imMin im := ne_of_gt hlt
  have hkey : normalize im true = ({ im with pix := fun i j =>
      if (true = true ∧ 1/2 ≤
          ((if 2 ≤ im.width then im.pix (im.width - 2) (im.height - 1)
            else im.pix (im.width - 1) (im.height - 1)) - imMin im)
            / (imMax im - imMin im))
      then 1 - (im.pix i j - imMin im) / (imMax im - imMin im)
      else (im.pix i j - imMin im) / (imMax im - imMin im) }, true) := by
    simp only [normalize]
    rw [if_neg hdim, if_neg hne]
  rw [hkey]
  refine ⟨rfl, ?_⟩
  intro i j
  show (if (true = true ∧ 1/2 ≤
      ((if 2 ≤ im.width then im.pix (im.width - 2) (im.height - 1)
        else im.pix (im.width - 1) (im.height - 1)) - imMin im)
        / (imMax im - imMin im))
    then 1 - (im.pix i j - imMin im) / (imMax im - imMin im)
    else (im.pix i j - imMin im) / (imMax im - imMin im)) = _
  rw [if_pos hw]
  by_cases hflag : 1/2 ≤ (im.pix (im.width - 2) (im.height - 1) - imMin im)
      / (imMax im - imMin im)
  · rw [if_pos ⟨rfl, hflag⟩, if_pos hflag]
  · rw [if_neg (by rintro ⟨-, hc⟩; exact hflag hc), if_neg hflag]

theorem twoPixelImage_allCoords : allCoords twoPixelImage = [(0, 0), (1, 0)] := by
  simp [allCoords, twoPixelImage, List.range_succ]

theorem twoPixelImage_max : imMax twoPixelImage = 1 := by
  rw [imMax, twoPixelImage_allCoords]
  show max (max 0 (twoPixelImage.pix 0 0)) (twoPixelImage.pix 1 0) = 1
  norm_num [twoPixelImage, max_def]

theorem twoPixelImage_min : imMin twoPixelImage = 0 := by
  rw [imMin, twoPixelImage_allCoords]
  show min (min 256 (twoPixelImage.pix 0 0)) (twoPixelImage.pix 1 0) = 0
  norm_num [twoPixelImage, min_def]

/-- Witness for C5 at the concrete two-pixel image: the hypotheses hold
and normalization succeeds. -/
theorem normalize_auto_inverse_witness :
    2 ≤ twoPixelImage.width ∧ 0 < twoPixelImage.height ∧
    imMin twoPixelImage < imMax twoPixelImage ∧
    (normalize twoPixelImage true).2 = true := by
  have hlt : imMin twoPixelImage < imMax twoPixelImage := by
    rw [twoPixelImage_min, twoPixelImage_max]
    norm_num
  exact ⟨by decide, by decide, hlt,
    (normalize_auto_inverse twoPixelImage (by decide) (by decide) hlt).1⟩

/-- Every pixel of a binarized image is 0 or 1. -/
theorem binarize_pix_mem (X : GrayImage) (t : ℚ) (i j : Nat) :
    (binarize X t).pix i j = 0 ∨ (binarize X t).pix i j = 1 := by
  by_cases hb : t ≤ X.pix i j
  · exact Or.inr (if_pos hb)
  · exact Or.inl (if_neg hb)

/-- C6: on an input with usable content, `pre_process` (and
`pre_process_pending_line`) succeeds, and its output is exactly the
384×32 canvas with every pixel 0 or 1 obtained by rescaling the cropped
re-normalized image to height 32 with the triangle filter, overlaying it
at the origin of the 384-wide zero canvas, and thresholding at 0.53
(ordinary variant) or 0.50 (pending-line variant). -/
theorem pre_process_output (im : GrayImage)
    (husable : (normalize im true).2 = true) :
    (pre_process im).2 = true ∧
    (pre_process_pending_line im).2 = true ∧
    (pre_process im).1.width = 384 ∧ (pre_process im).1.height = 32 ∧
    (pre_process_pending_line im).1.width = 384 ∧
    (pre_process_pending_line im).1.height = 32 ∧
    (∀ i j, (pre_process im).1.pix i j = 0 ∨ (pre_process im).1.pix i j = 1) ∧
    (∀ i j, (pre_process_pending_line im).1.pix i j = 0 ∨
      (pre_process_pending_line im).1.pix i j = 1) ∧
    pre_process im
      = (binarize (resize_and_pad
          ((normalize (crop (normalize im true).1) false).1))
          BINARIZE_THRESHOLD, true) ∧
    pre_process_pending_line im
      = (binarize (resize_and_pad
          ((normalize (crop (normalize im true).1) false).1))
          BINARIZE_THRESHOLD_PENDING, true) := by
  have hn : normalize im true = ((normalize im true).1, true) :=
    Prod.ext rfl husable
  have hp : pre_process im
      = (binarize (resize_and_pad
          ((normalize (crop (normalize im true).1) false).1))
          BINARIZE_THRESHOLD, true) := by
    unfold pre_process
    rw [hn]
  have hq : pre_process_pending_line im
      = (binarize (resize_and_pad
          ((normalize (crop (normalize im true).1) false).1))
          BINARIZE_THRESHOLD_PENDING, true) := by
    unfold pre_process_pending_line
    rw [hn]
  refine ⟨by rw [hp], by rw [hq], by rw [hp]; rfl, by rw [hp]; rfl,
    by rw [hq]; rfl, by rw [hq]; rfl, ?_, ?_, hp, hq⟩
  · intro i j
    rw [hp]
    exact binarize_pix_mem _ _ i j
  · intro i j
    rw [hq]
    exact binarize_pix_mem _ _ i j

/-- Witness for C6 at the concrete two-pixel image. -/
theorem pre_process_output_witness :
    (normalize twoPixelImage true).2 = true ∧
    (pre_process twoPixelImage).1.width = 384 ∧
    (pre_process twoPixelImage).1.height = 32 := by
  have husable : (normalize twoPixelImage true).2 = true := by
    simp only [normalize]
    rw [if_neg (by decide),
      if_neg (by rw [twoPixelImage_max, twoPixelImage_min]; norm_num)]
  exact ⟨husable, (pre_process_output twoPixelImage husable).2.2.1,
    (pre_process_output twoPixelImage husable).2.2.2.1⟩

/-- Bumping the consumed count does not change whether the outcome is a panic. -/
theorem WorkerOutcome.bump_isPanic (o : WorkerOutcome) :
    o.bump.isPanic = o.isPanic := by
  cases o <;> rfl

/-- C9: a per-item recognition or level-parse failure is isolated to
that item: the worker sends a `none` marker on the feedback channel when
one is configured, adds nothing to the accepted set or the result list
for that item, leaves the duplicate counter unchanged, and continues
consuming with the next message instead of terminating. -/
theorem worker_error_isolated (wi : ArtifactScannerWindowInfo)
    (cfg : GenshinArtifactScannerConfig)
    (scan : SendItem → Option GenshinArtifactScanResult) (hasTx : Bool)
    (st : WorkerState) (item : SendItem) (rest : List (Option SendItem))
    (lk : Bool)
    (hlk : (st.locks ++ pageLocksOf wi item).get?
      (st.artifactIndex + 1 - 1).toNat = some lk)
    (hscan : scan item = none) :
    runWorker wi cfg scan hasTx (some item :: rest) st
      = (runWorker wi cfg scan hasTx rest
          { st with
            locks := st.locks ++ pageLocksOf wi item
            artifactIndex := st.artifactIndex + 1
            feedback := pushFeedback hasTx st.feedback none }).bump := by
  simp only [runWorker]
  rw [hlk, hscan]

/-- Witness for C9 at concrete inputs: one failing item followed by a
further message; the run keeps going into the tail. -/
theorem worker_error_isolated_witness :
    (((⟨[], [], 0, [false], 0, []⟩ : WorkerState).locks
        ++ pageLocksOf ⟨1, 5, ⟨0, 0⟩, ⟨0, 0⟩⟩ plainItem).get?
      (((⟨[], [], 0, [false], 0, []⟩ : WorkerState).artifactIndex + 1 - 1)).toNat
        = some false) ∧
    runWorker ⟨1, 5, ⟨0, 0⟩, ⟨0, 0⟩⟩ ⟨0, false⟩ (fun _ => none) true
        [some plainItem, none] ⟨[], [], 0, [false], 0, []⟩
      = (runWorker ⟨1, 5, ⟨0, 0⟩, ⟨0, 0⟩⟩ ⟨0, false⟩ (fun _ => none) true [none]
          { (⟨[], [], 0, [false], 0, []⟩ : WorkerState) with
            locks := (⟨[], [], 0, [false], 0, []⟩ : WorkerState).locks
              ++ pageLocksOf ⟨1, 5, ⟨0, 0⟩, ⟨0, 0⟩⟩ plainItem
            artifactIndex := (⟨[], [], 0, [false], 0, []⟩ : WorkerState).artifactIndex + 1
            feedback := pushFeedback true
              (⟨[], [], 0, [false], 0, []⟩ : WorkerState).feedback none }).bump :=
  ⟨rfl, worker_error_isolated ⟨1, 5, ⟨0, 0⟩, ⟨0, 0⟩⟩ ⟨0, false⟩ (fun _ => none)
    true ⟨[], [], 0, [false], 0, []⟩ plainItem [none] false rfl rfl⟩

/-- C2: with the duplicate-override flag unset and positive column
count, an in-bounds scanned item at or above the level floor whose
content matches the accepted set increments the consecutive-duplicate
counter and is excluded from the result list and the set — though still
sent on the feedback channel — and, once the incremented counter reaches
the column count, the worker stops with only this message consumed,
reading nothing further from the channel; an item whose content matches
nothing resets the counter to zero and is accepted. -/
theorem worker_dedup_stops (wi : ArtifactScannerWindowInfo)
    (cfg : GenshinArtifactScannerConfig)
    (scan : SendItem → Option GenshinArtifactScanResult) (hasTx : Bool)
    (st : WorkerState) (item : SendItem) (rest : List (Option SendItem))
    (lk : Bool) (r0 : GenshinArtifactScanResult)
    (hov : cfg.ignore_dup = false) (hcol : 0 < wi.col)
    (hlk : (st.locks ++ pageLocksOf wi item).get?
      (st.artifactIndex + 1 - 1).toNat = some lk)
    (hscan : scan item = some r0)
    (hlvl : cfg.min_level ≤ ({ r0 with lock := lk } : GenshinArtifactScanResult).level) :
    (dedupMem { r0 with lock := lk } st.dedup = true →
      (st.dupCount + 1 < wi.col →
        runWorker wi cfg scan hasTx (some item :: rest) st
          = (runWorker wi cfg scan hasTx rest
              { st with
                locks := st.locks ++ pageLocksOf wi item
                artifactIndex := st.artifactIndex + 1
                feedback := pushFeedback hasTx st.feedback
                  (some { r0 with lock := lk })
                dupCount := st.dupCount + 1 }).bump) ∧
      (wi.col ≤ st.dupCount + 1 →
        runWorker wi cfg scan hasTx (some item :: rest) st
          = .ok { st with
              locks := st.locks ++ pageLocksOf wi item
              artifactIndex := st.artifactIndex + 1
              feedback := pushFeedback hasTx st.feedback
                (some { r0 with lock := lk })
              dupCount := st.dupCount + 1 } 1)) ∧
    (dedupMem { r0 with lock := lk } st.dedup = false →
      runWorker wi cfg scan hasTx (some item :: rest) st
        = (runWorker wi cfg scan hasTx rest
            { st with
              locks := st.locks ++ pageLocksOf wi item
              artifactIndex := st.artifactIndex + 1
              feedback := pushFeedback hasTx st.feedback
                (some { r0 with lock := lk })
              dupCount := 0
              dedup := { r0 with lock := lk } :: st.dedup
              results := st.results ++ [{ r0 with lock := lk }] }).bump) ∧
    runWorker ⟨1, 5, ⟨0, 0⟩, ⟨0, 0⟩⟩ ⟨0, false⟩ (fun _ => some sampleResult)
        false (List.replicate 8 (some plainItem))
        ⟨[], [], 0, List.replicate 10 false, 0, []⟩
      = .ok ⟨[sampleResult], [sampleResult], 5, List.replicate 10 false, 6, []⟩
          6 := by
  have hstep : runWorker wi cfg scan hasTx (some item :: rest) st
      = (if ({ r0 with lock := lk } : GenshinArtifactScanResult).level
            < cfg.min_level then
          .ok { st with
            locks := st.locks ++ pageLocksOf wi item
            artifactIndex := st.artifactIndex + 1
            feedback := pushFeedback hasTx st.feedback
              (some { r0 with lock := lk }) } 1
        else if dedupMem { r0 with lock := lk } st.dedup then
          (if st.dupCount + 1 ≥ wi.col ∧ ¬ cfg.ignore_dup then
            .ok { st with
              locks := st.locks ++ pageLocksOf wi item
              artifactIndex := st.artifactIndex + 1
              feedback := pushFeedback hasTx st.feedback
                (some { r0 with lock := lk })
              dupCount := st.dupCount + 1 } 1
          else (runWorker wi cfg scan hasTx rest
            { st with
              locks := st.locks ++ pageLocksOf wi item
              artifactIndex := st.artifactIndex + 1
              feedback := pushFeedback hasTx st.feedback
                (some { r0 with lock := lk })
              dupCount := st.dupCount + 1 }).bump)
        else
          (if (0 : Int) ≥ wi.col ∧ ¬ cfg.ignore_dup then
            .ok { st with
              locks := st.locks ++ pageLocksOf wi item
              artifactIndex := st.artifactIndex + 1
              feedback := pushFeedback hasTx st.feedback
                (some { r0 with lock := lk })
              dupCount := 0
              dedup := { r0 with lock := lk } :: st.dedup
              results := st.results ++ [{ r0 with lock := lk }] } 1
          else (runWorker wi cfg scan hasTx rest
            { st with
              locks := st.locks ++ pageLocksOf wi item
              artifactIndex := st.artifactIndex + 1
              feedback := pushFeedback hasTx st.feedback
                (some { r0 with lock := lk })
              dupCount := 0
              dedup := { r0 with lock := lk } :: st.dedup
              results := st.results ++ [{ r0 with lock := lk }] }).bump)) := by
    simp only [runWorker]
    rw [hlk, hscan]
  refine ⟨fun hdup => ⟨fun hlt2 => ?_, fun hge => ?_⟩, fun hnodup => ?_, ?_⟩
  · rw [hstep, if_neg (not_lt.mpr hlvl), if_pos hdup,
      if_neg (by rintro ⟨h1, -⟩; omega)]
  · rw [hstep, if_neg (not_lt.mpr hlvl), if_pos hdup,
      if_pos ⟨by omega, by simp [hov]⟩]
  · rw [hstep, if_neg (not_lt.mpr hlvl), if_neg (by simp [hnodup]),
      if_neg (by rintro ⟨h1, -⟩; omega)]
  · decide

/-- Witness for C2: with `cols = 5`, the fifth consecutive duplicate
(counter at 4, matching item arriving) stops the run with exactly one
message consumed, the two remaining channel messages never read. -/
theorem worker_dedup_stops_witness :
    dedupMem { sampleResult with lock := false } [sampleResult] = true ∧
    runWorker ⟨1, 5, ⟨0, 0⟩, ⟨0, 0⟩⟩ ⟨0, false⟩ (fun _ => some sampleResult)
        true (some plainItem :: [some plainItem, none])
        ⟨[], [sampleResult], 4, List.replicate 6 false, 4, []⟩
      = .ok ⟨[], [sampleResult], 5, List.replicate 6 false, 5,
          [some sampleResult]⟩ 1 := by
  have h := ((worker_dedup_stops ⟨1, 5, ⟨0, 0⟩, ⟨0, 0⟩⟩ ⟨0, false⟩
      (fun _ => some sampleResult) true
      ⟨[], [sampleResult], 4, List.replicate 6 false, 4, []⟩ plainItem
      [some plainItem, none] false sampleResult rfl (by decide) (by decide)
      rfl (by decide)).1 (by decide)).2 (by decide)
  refine ⟨by decide, ?_⟩
  rw [h]
  decide

/-- The invariant argument for C3: if the locks list holds exactly
`p * k` entries where `p` is the page size and `k` the number of pages
seen, the consumed count sits inside page `k`, and the remaining
messages carry a `p`-entry list image exactly on page-first indices,
then the run never hits the out-of-bounds lock access. -/
theorem runWorker_no_panic_aux (wi : ArtifactScannerWindowInfo)
    (cfg : GenshinArtifactScannerConfig)
    (scan : SendItem → Option GenshinArtifactScanResult) (hasTx : Bool)
    (p : Nat) (hp : (wi.row * wi.col).toNat = p) (hp0 : 0 < p) :
    ∀ (msgs : List (Option SendItem)) (st : WorkerState) (k : Nat),
      0 ≤ st.artifactIndex →
      st.locks.length = p * k →
      st.artifactIndex.toNat ≤ p * k →
      p * k < st.artifactIndex.toNat + p →
      (∀ i item, msgs.get? i = some (some item) →
        (item.list_image.isSome
          = is_page_first_artifact wi.row wi.col (st.artifactIndex + (i : Int))) ∧
        ∀ li, item.list_image = some li →
          (get_page_locks_from_list_image li wi).length = p) →
      (runWorker wi cfg scan hasTx msgs st).isPanic = false := by
  intro msgs
  induction msgs with
  | nil => intro st k _ _ _ _ _; rfl
  | cons msg rest ih =>
    intro st k hA hlen hle hlt hmsgs
    rcases msg with _ | item
    · rfl
    · have hAa : (st.artifactIndex.toNat : Int) = st.artifactIndex :=
        Int.toNat_of_nonneg hA
      have hq : wi.col * wi.row = (p : Int) := by
        have h1 : wi.row * wi.col = wi.col * wi.row := mul_comm _ _
        omega
      have hpf_iff : is_page_first_artifact wi.row wi.col st.artifactIndex = true
          ↔ st.artifactIndex.toNat % p = 0 := by
        have hmod : Int.tmod st.artifactIndex ((p : Nat) : Int)
            = ((st.artifactIndex.toNat % p : Nat) : Int) := by
          rw [Int.tmod_eq_emod hA (Int.natCast_nonneg p)]
          conv_lhs => rw [← hAa]
          rw [← Int.ofNat_emod]
        simp only [is_page_first_artifact]
        rw [hq, hmod]
        simp only [beq_iff_eq, Nat.cast_eq_zero]
      have hidx : (st.artifactIndex + 1 - 1).toNat = st.artifactIndex.toNat := by
        omega
      have hi0 : st.artifactIndex + ((0 : Nat) : Int) = st.artifactIndex := by
        simp
      have hshift : ∀ i : Nat,
          st.artifactIndex + 1 + (i : Int) = st.artifactIndex + ((i + 1 : Nat) : Int) := by
        intro i
        push_cast
        ring
      by_cases hpf : st.artifactIndex.toNat % p = 0
      · -- page-first item: it carries a list image with p lock entries
        have himg : item.list_image.isSome = true := by
          rw [(hmsgs 0 item rfl).1, hi0]
          exact hpf_iff.mpr hpf
        obtain ⟨li, hli⟩ := Option.isSome_iff_exists.mp himg
        have hplen : (pageLocksOf wi item).length = p := by
          simp only [pageLocksOf, hli]
          exact (hmsgs 0 item rfl).2 li hli
        obtain ⟨m, hm⟩ := Nat.dvd_of_mod_eq_zero hpf
        have hm1 : m ≤ k := by
          refine Nat.le_of_mul_le_mul_left ?_ hp0
          omega
        have hm2 : k ≤ m := by
          have hms : p * (m + 1) = p * m + p := by ring
          have h2 : p * k < p * (m + 1) := by omega
          have := Nat.lt_of_mul_lt_mul_left h2
          omega
        have ha_eq : st.artifactIndex.toNat = p * k := by
          have hmk : m = k := le_antisymm hm1 hm2
          rw [hm, hmk]
        have hlen1 : (st.locks ++ pageLocksOf wi item).length = p * k + p := by
          rw [List.length_append, hlen, hplen]
        obtain ⟨lk, hlk⟩ : ∃ b, (st.locks ++ pageLocksOf wi item).get?
            st.artifactIndex.toNat = some b := by
          rcases hgl : (st.locks ++ pageLocksOf wi item).get?
            st.artifactIndex.toNat with _ | b
          · rw [List.get?_eq_none] at hgl
            omega
          · exact ⟨b, rfl⟩
        have hrec : ∀ (rrx ddx : List GenshinArtifactScanResult) (dcx : Int)
            (fbx : List (Option GenshinArtifactScanResult)),
            (runWorker wi cfg scan hasTx rest
              ⟨rrx, ddx, dcx, st.locks ++ pageLocksOf wi item,
                st.artifactIndex + 1, fbx⟩).isPanic = false := by
          intro rrx ddx dcx fbx
          have hsucc : p * (k + 1) = p * k + p := by ring
          refine ih _ (k + 1) (show 0 ≤ st.artifactIndex + 1 by omega)
            (show (st.locks ++ pageLocksOf wi item).length = p * (k + 1) by
              rw [hlen1]; ring)
            (show (st.artifactIndex + 1).toNat ≤ p * (k + 1) by omega)
            (show p * (k + 1) < (st.artifactIndex + 1).toNat + p by omega) ?_
          intro i item2 hgi
          have h2 := hmsgs (i + 1) item2 hgi
          exact ⟨by rw [hshift i]; exact h2.1, h2.2⟩
        rcases hscan : scan item with _ | r0
        · simp only [runWorker, hidx, hlk, hscan]
          rw [WorkerOutcome.bump_isPanic]
          exact hrec _ _ _ _
        · simp only [runWorker, hidx, hlk, hscan]
          by_cases hlv : ({ r0 with lock := lk } :
              GenshinArtifactScanResult).level < cfg.min_level
          · rw [if_pos hlv]
            rfl
          · rw [if_neg hlv]
            by_cases hdup : dedupMem { r0 with lock := lk } st.dedup = true
            · rw [if_pos hdup]
              by_cases hstop : st.dupCount + 1 ≥ wi.col ∧ ¬ cfg.ignore_dup
              · rw [if_pos hstop]
                rfl
              · rw [if_neg hstop, WorkerOutcome.bump_isPanic]
                exact hrec _ _ _ _
            · rw [if_neg hdup]
              by_cases hstop : (0 : Int) ≥ wi.col ∧ ¬ cfg.ignore_dup
              · rw [if_pos hstop]
                rfl
              · rw [if_neg hstop, WorkerOutcome.bump_isPanic]
                exact hrec _ _ _ _
      · -- not page-first: no list image, the lock entry is already there
        have hli : item.list_image = none := by
          rcases holi : item.list_image with _ | li
          · rfl
          · exfalso
            have h1 := (hmsgs 0 item rfl).1
            rw [holi, hi0] at h1
            exact hpf (hpf_iff.mp h1.symm)
        have hplen : (pageLocksOf wi item).length = 0 := by
          simp [pageLocksOf, hli]
        have hane : st.artifactIndex.toNat ≠ p * k := by
          intro heq
          exact hpf (heq ▸ Nat.mul_mod_right p k)
        have hlen1 : (st.locks ++ pageLocksOf wi item).length = p * k := by
          rw [List.length_append, hlen, hplen]
          omega
        obtain ⟨lk, hlk⟩ : ∃ b, (st.locks ++ pageLocksOf wi item).get?
            st.artifactIndex.toNat = some b := by
          rcases hgl : (st.locks ++ pageLocksOf wi item).get?
            st.artifactIndex.toNat with _ | b
          · rw [List.get?_eq_none] at hgl
            omega
          · exact ⟨b, rfl⟩
        have hrec : ∀ (rrx ddx : List GenshinArtifactScanResult) (dcx : Int)
            (fbx : List (Option GenshinArtifactScanResult)),
            (runWorker wi cfg scan hasTx rest
              ⟨rrx, ddx, dcx, st.locks ++ pageLocksOf wi item,
                st.artifactIndex + 1, fbx⟩).isPanic = false := by
          intro rrx ddx dcx fbx
          refine ih _ k (show 0 ≤ st.artifactIndex + 1 by omega)
            (show (st.locks ++ pageLocksOf wi item).length = p * k from hlen1)
            (show (st.artifactIndex + 1).toNat ≤ p * k by omega)
            (show p * k < (st.artifactIndex + 1).toNat + p by omega) ?_
          intro i item2 hgi
          have h2 := hmsgs (i + 1) item2 hgi
          exact ⟨by rw [hshift i]; exact h2.1, h2.2⟩
        rcases hscan : scan item with _ | r0
        · simp only [runWorker, hidx, hlk, hscan]
          rw [WorkerOutcome.bump_isPanic]
          exact hrec _ _ _ _
        · simp only [runWorker, hidx, hlk, hscan]
          by_cases hlv : ({ r0 with lock := lk } :
              GenshinArtifactScanResult).level < cfg.min_level
          · rw [if_pos hlv]
            rfl
          · rw [if_neg hlv]
            by_cases hdup : dedupMem { r0 with lock := lk } st.dedup = true
            · rw [if_pos hdup]
              by_cases hstop : st.dupCount + 1 ≥ wi.col ∧ ¬ cfg.ignore_dup
              · rw [if_pos hstop]
                rfl
              · rw [if_neg hstop, WorkerOutcome.bump_isPanic]
                exact hrec _ _ _ _
            · rw [if_neg hdup]
              by_cases hstop : (0 : Int) ≥ wi.col ∧ ¬ cfg.ignore_dup
              · rw [if_pos hstop]
                rfl
              · rw [if_neg hstop, WorkerOutcome.bump_isPanic]
                exact hrec _ _ _ _

/-- C3: starting from the worker's initial state, if each page-first
item (absolute index `i` with `is_page_first_artifact` true, as the
driver produces them) carries a list image, non-page-first items carry
none, and `get_page_locks_from_list_image` yields one lock entry per
cell of the page for each carried image, then the unchecked
`locks[artifact_index - 1]` read is in bounds for every consumed item:
the run never panics there. -/
theorem worker_locks_in_bounds (wi : ArtifactScannerWindowInfo)
    (cfg : GenshinArtifactScannerConfig)
    (scan : SendItem → Option GenshinArtifactScanResult) (hasTx : Bool)
    (msgs : List (Option SendItem))
    (hpage : 0 < wi.row * wi.col)
    (hmsgs : ∀ i item, msgs.get? i = some (some item) →
      (item.list_image.isSome = is_page_first_artifact wi.row wi.col (i : Int)) ∧
      ∀ li, item.list_image = some li →
        (get_page_locks_from_list_image li wi).length = (wi.row * wi.col).toNat) :
    (runWorker wi cfg scan hasTx msgs ⟨[], [], 0, [], 0, []⟩).isPanic = false := by
  have hp0 : 0 < (wi.row * wi.col).toNat := by omega
  exact runWorker_no_panic_aux wi cfg scan hasTx (wi.row * wi.col).toNat rfl hp0
    msgs ⟨[], [], 0, [], 0, []⟩ 0 (by decide) (by simp) (by simp)
    (by simpa using hp0)
    (fun i item hgi =>
      ⟨by simpa using (hmsgs i item hgi).1, (hmsgs i item hgi).2⟩)

theorem ratTruncU32_zero : ratTruncU32 0 = 0 := by
  unfold ratTruncU32 ratTruncI32
  rw [if_pos le_rfl, Int.floor_zero]
  rfl

/-- When every row offset fits inside the list image, the row loop of
`get_page_locks_from_list_image` does not break early and the function
yields exactly one lock entry per cell of the page. -/
theorem get_page_locks_length_of_fits (li : RgbImage)
    (wi : ArtifactScannerWindowInfo)
    (hfit : ∀ r, r < wi.row.toNat →
      ratTruncU32 ((wi.item_gap_size.height + wi.item_size.height) * (r : ℚ))
        ≤ li.height) :
    (get_page_locks_from_list_image li wi).length
      = wi.row.toNat * wi.col.toNat := by
  simp only [get_page_locks_from_list_image]
  have htw : (List.range wi.row.toNat).takeWhile (fun (r : Nat) =>
      decide (ratTruncU32
        ((wi.item_gap_size.height + wi.item_size.height) * (r : ℚ))
        ≤ li.height)) = List.range wi.row.toNat := by
    refine List.takeWhile_eq_self_iff.mpr ?_
    intro r hr
    simpa using hfit r (List.mem_range.mp hr)
  rw [htw, List.length_flatMap]
  have hmap : List.map (List.length ∘ fun (r : Nat) =>
      (List.range wi.col.toNat).map
      fun (c : Nat) => lockedAt li
        ((wi.item_gap_size.width + wi.item_size.width) * (c : ℚ) + 19)
        ((wi.item_gap_size.height + wi.item_size.height) * (r : ℚ) + 93))
      (List.range wi.row.toNat)
      = List.map (fun _ => wi.col.toNat) (List.range wi.row.toNat) := by
    refine List.map_congr_left ?_
    intro r _
    simp
  rw [hmap, List.map_const', List.sum_replicate, List.length_range,
    smul_eq_mul]

theorem listImage50_locks_length :
    (get_page_locks_from_list_image listImage50 ⟨1, 1, ⟨0, 0⟩, ⟨0, 0⟩⟩).length
      = 1 := by
  rw [get_page_locks_length_of_fits]
  · rfl
  · intro r hr
    have h1 : ((⟨1, 1, ⟨0, 0⟩, ⟨0, 0⟩⟩ :
        ArtifactScannerWindowInfo).row).toNat = 1 := rfl
    rw [h1] at hr
    have hr0 : r = 0 := by omega
    subst hr0
    show ratTruncU32 (((0 : ℚ) + 0) * ((0 : Nat) : ℚ)) ≤ 200
    rw [show ((0 : ℚ) + 0) * ((0 : Nat) : ℚ) = 0 from by norm_num,
      ratTruncU32_zero]
    decide

/-- Witness for C3 at a concrete 1×1-page stream: a page-first item
carrying a list image that yields one lock entry, then the sentinel; the
run does not panic. -/
theorem worker_locks_in_bounds_witness :
    (0 : Int) < 1 * 1 ∧
    (runWorker ⟨1, 1, ⟨0, 0⟩, ⟨0, 0⟩⟩ ⟨0, false⟩ (fun _ => some sampleResult)
        false [some imageItem, none] ⟨[], [], 0, [], 0, []⟩).isPanic
      = false := by
  refine ⟨by decide, worker_locks_in_bounds _ _ _ _ _ (by decide) ?_⟩
  intro i item hgi
  match i, hgi with
  | 0, hgi =>
    have hitem : item = imageItem := by
      injection hgi with h1
      injection h1 with h2
      exact h2.symm
    subst hitem
    refine ⟨by decide, ?_⟩
    intro li hli
    have hl : li = listImage50 := by
      injection (show some listImage50 = some li from hli) with h
      exact h.symm
    subst hl
    exact listImage50_locks_length
  | 1, hgi =>
    have h1 : (none : Option SendItem) = some item := by
      injection hgi with h1
    exact Option.noConfusion h1
  | (n + 2), hgi => exact Option.noConfusion hgi

end Yas
